import Mathlib

set_option maxRecDepth 200000

/-!
Verification of the reschedule-API repository: a shallow embedding of the
error normalizer `cleanErrorMessage` (src automation module) and of the
request-queue core of the HTTP server (queue, single worker, per-request
timers, graceful shutdown), together with theorems settling the spec claims.

Strings are processed as `List Char`; `String` appears only at the outer
boundary.  The JavaScript regular expressions of the source are embedded as
specialized scanners whose behaviour coincides with the JS backtracking
semantics for the patterns involved (analysed pattern by pattern below).
JS `\s` is modelled by the ASCII whitespace characters, which covers every
character the source messages use.
-/

/- ── List helpers ──────────────────────────────────────────────────── -/

theorem dropWhile_len_le {α : Type} (p : α → Bool) :
    ∀ l : List α, (l.dropWhile p).length ≤ l.length := by
  intro l
  induction l with
  | nil => simp [List.dropWhile]
  | cons c t ih =>
    simp only [List.dropWhile]
    split
    · exact Nat.le_succ_of_le ih
    · exact Nat.le_refl _

/- ── Character classes ─────────────────────────────────────────────── -/

/-- ASCII model of the JS `\s` character class. -/
def isSpaceJS (c : Char) : Bool :=
  c == ' ' || c == '\t' || c == '\n' || c == '\r' || c == '\x0b' || c == '\x0c'

/-- JS `\w` character class: `[A-Za-z0-9_]`. -/
def isWordChar (c : Char) : Bool :=
  c.isAlpha || c.isDigit || c == '_'

/- ── Case-insensitive matching (the `i` regex flag) ────────────────── -/

/-- Case-insensitive literal match at the start of the input; returns the
remainder after the matched literal. -/
def startsWithCI : List Char → List Char → Option (List Char)
  | [], cs => some cs
  | _ :: _, [] => none
  | p :: ps, c :: cs => if p.toLower == c.toLower then startsWithCI ps cs else none

/-- Case-insensitive substring test: models `/lit/i.test(s)` for a literal
pattern (in `secure\.simplepractice` the `\.` stands for a literal dot). -/
def containsCI (pat : List Char) : List Char → Bool
  | [] => (startsWithCI pat []).isSome
  | c :: t => (startsWithCI pat (c :: t)).isSome || containsCI pat t

theorem startsWithCI_length_le :
    ∀ pat cs rest, startsWithCI pat cs = some rest → rest.length ≤ cs.length := by
  intro pat
  induction pat with
  | nil => intro cs rest h; simp [startsWithCI] at h; simp [h]
  | cons p ps ih =>
    intro cs rest h
    cases cs with
    | nil => simp [startsWithCI] at h
    | cons c t =>
      simp only [startsWithCI] at h
      by_cases hc : (p.toLower == c.toLower) = true
      · rw [if_pos hc] at h
        exact Nat.le_succ_of_le (ih t rest h)
      · rw [if_neg hc] at h; cases h

/- ── The log-block stripper ────────────────────────────────────────── -/

/-!
Models `raw.replace(/=+\s*logs\s*=+[\s\S]*?=+/gi, '')`.

For this pattern the JS backtracking behaviour is deterministic: the `=+`
runs cannot trade characters with the neighbouring `\s*`/literal parts, so
each greedy `=+` consumes its maximal run.  After `logs\s*` the engine takes
the maximal `=`-run; the lazy `[\s\S]*?` then extends to the first later
`=`, whose full run the final greedy `=+` consumes.  If no `=` exists after
the run, the engine backtracks the third `=+` by one character (possible iff
the run has length at least 2) and the match ends at the end of that run.
-/

/-- Skip to just after the next maximal `=`-run (lazy `[\s\S]*?` followed by
a final greedy `=+`); `none` when no `=` occurs in the input. -/
def afterNextEqRun : List Char → Option (List Char)
  | [] => none
  | c :: r => if c == '=' then some (r.dropWhile (· == '=')) else afterNextEqRun r

theorem afterNextEqRun_length_le :
    ∀ cs rest, afterNextEqRun cs = some rest → rest.length ≤ cs.length := by
  intro cs
  induction cs with
  | nil => intro rest h; simp [afterNextEqRun] at h
  | cons c t ih =>
    intro rest h
    simp only [afterNextEqRun] at h
    split at h
    · cases h; exact Nat.le_succ_of_le (dropWhile_len_le _ _)
    · exact Nat.le_succ_of_le (ih rest h)

/-- The `=+[\s\S]*?=+` tail of the log-block pattern, applied to what
follows `logs\s*`. -/
def closeLogBlock : List Char → Option (List Char)
  | '=' :: r5 =>
    match afterNextEqRun (r5.dropWhile (· == '=')) with
    | some r7 => some r7
    | none =>
      -- no later `=`: the closing run itself must have length ≥ 2
      match r5 with
      | '=' :: _ => some (r5.dropWhile (· == '='))
      | _ => none
  | _ => none

theorem closeLogBlock_length_le :
    ∀ cs rest, closeLogBlock cs = some rest → rest.length ≤ cs.length := by
  intro cs rest h
  rw [closeLogBlock.eq_def] at h
  split at h
  case _ r5 =>
    split at h
    case _ r7 h7 =>
      cases h
      exact Nat.le_succ_of_le
        (le_trans (afterNextEqRun_length_le _ _ h7) (dropWhile_len_le _ _))
    case _ =>
      split at h
      · cases h
        exact Nat.le_succ_of_le (dropWhile_len_le _ _)
      · cases h
  · cases h

/-- Attempt the log-block pattern at the current position; on a match,
return the remainder of the input after the matched block. -/
def tryLogBlock : List Char → Option (List Char)
  | '=' :: r0 =>
    match startsWithCI "logs".data ((r0.dropWhile (· == '=')).dropWhile isSpaceJS) with
    | none => none
    | some r3 => closeLogBlock (r3.dropWhile isSpaceJS)
  | _ => none

theorem tryLogBlock_length_lt :
    ∀ cs rest, tryLogBlock cs = some rest → rest.length < cs.length := by
  intro cs rest h
  rw [tryLogBlock.eq_def] at h
  split at h
  case _ r0 =>
    split at h
    · cases h
    case _ r3 h3 =>
      have b1 : rest.length ≤ (r3.dropWhile isSpaceJS).length :=
        closeLogBlock_length_le _ _ h
      have b2 : (r3.dropWhile isSpaceJS).length ≤ r3.length :=
        dropWhile_len_le _ _
      have b3 : r3.length ≤ ((r0.dropWhile (· == '=')).dropWhile isSpaceJS).length :=
        startsWithCI_length_le _ _ _ h3
      have b4 : ((r0.dropWhile (· == '=')).dropWhile isSpaceJS).length ≤ r0.length :=
        le_trans (dropWhile_len_le _ _) (dropWhile_len_le _ _)
      simp only [List.length_cons]
      omega
  · cases h

/-- Global replacement by the empty string: scan left to right, restart the
scan just after each match (the `g` flag advances past the matched block).
Structural recursion on a fuel argument so that the function reduces by
kernel computation; `tryLogBlock_length_lt` shows a fuel of the input
length is sufficient (every step consumes at least one character). -/
def stripLogBlocksAux : Nat → List Char → List Char
  | 0, cs => cs
  | _ + 1, [] => []
  | fuel + 1, c :: t =>
    match tryLogBlock (c :: t) with
    | some rest => stripLogBlocksAux fuel rest
    | none => c :: stripLogBlocksAux fuel t

def stripLogBlocks (cs : List Char) : List Char := stripLogBlocksAux cs.length cs

/- ── The action-context stripper ───────────────────────────────────── -/

/-!
Models `msg.replace(/^(page|locator|browser|context)\.\w+(\.\w+)*:\s*/i, '')`.
Anchored; the alternatives start with distinct letters, so at most one can
match; `\w+` and `(\.\w+)*` cannot backtrack usefully because `:` and `.`
are not word characters.
-/

/-- After `name.`: consume `\w*` (the tail of a `\w+` whose first character
the caller checked), then repeat `(\.\w+)*`, then require `:` and strip the
trailing `\s*`. -/
def chainRestAux : Nat → List Char → Option (List Char)
  | 0, _ => none
  | _ + 1, ':' :: r => some (r.dropWhile isSpaceJS)
  | fuel + 1, '.' :: c :: r =>
    if isWordChar c then chainRestAux fuel ((c :: r).dropWhile isWordChar) else none
  | _ + 1, _ => none

def chainRest (cs : List Char) : Option (List Char) := chainRestAux cs.length cs

/-- Consume `\w+(\.\w+)*:\s*` after the matched qualifier name and dot. -/
def afterQualifier : List Char → Option (List Char)
  | c :: r => if isWordChar c then chainRest ((c :: r).dropWhile isWordChar) else none
  | [] => none

/-- Try each alternative `name.` of the anchored qualifier pattern. -/
def tryQualifiers : List (List Char) → List Char → Option (List Char)
  | [], _ => none
  | p :: ps, cs =>
    match startsWithCI p cs with
    | some r => afterQualifier r
    | none => tryQualifiers ps cs

/-- The four alternatives of the action-context pattern. -/
def qualifierNames : List (List Char) :=
  ["page.".data, "locator.".data, "browser.".data, "context.".data]

/-- Strip a leading `(page|locator|browser|context).method(.method)*:`
qualifier together with the whitespace that follows it. -/
def stripActionQualifier (cs : List Char) : List Char :=
  match tryQualifiers qualifierNames cs with
  | some rest => rest
  | none => cs

/- ── Whitespace collapsing and trim ────────────────────────────────── -/

/-- JS `String.prototype.trim` (ASCII whitespace model). -/
def trimJS (cs : List Char) : List Char :=
  ((cs.dropWhile isSpaceJS).reverse.dropWhile isSpaceJS).reverse

/-- `msg.replace(/\n+/g, ' ')`: each maximal newline run becomes one space.
Fuel-structured; a fuel of the input length is sufficient since each step
consumes at least one character. -/
def collapseNLAux : Nat → List Char → List Char
  | 0, cs => cs
  | _ + 1, [] => []
  | fuel + 1, c :: t =>
    if c == '\n' then ' ' :: collapseNLAux fuel (t.dropWhile (· == '\n'))
    else c :: collapseNLAux fuel t

def collapseNL (cs : List Char) : List Char := collapseNLAux cs.length cs

/-- `msg.replace(/\s{2,}/g, ' ')`: each maximal whitespace run of length at
least two becomes one space; an isolated whitespace character is kept. -/
def collapseWSAux : Nat → List Char → List Char
  | 0, cs => cs
  | _ + 1, [] => []
  | _ + 1, [c] => [c]
  | fuel + 1, c :: d :: t =>
    if isSpaceJS c && isSpaceJS d then ' ' :: collapseWSAux fuel (t.dropWhile isSpaceJS)
    else c :: collapseWSAux fuel (d :: t)

def collapseWS (cs : List Char) : List Char := collapseWSAux cs.length cs

/- ── The timeout pattern ───────────────────────────────────────────── -/

/-- `/timeout\s*\d+ms\s*exceeded/i` attempted at the current position.  The
neighbouring pieces use disjoint character classes, so the greedy
quantifiers are deterministic. -/
def timeoutPatAt (cs : List Char) : Bool :=
  match startsWithCI "timeout".data cs with
  | none => false
  | some r1 =>
    let r2 := r1.dropWhile isSpaceJS
    if (r2.takeWhile Char.isDigit).isEmpty then false
    else
      match startsWithCI "ms".data (r2.dropWhile Char.isDigit) with
      | none => false
      | some r4 => (startsWithCI "exceeded".data (r4.dropWhile isSpaceJS)).isSome

/-- `/timeout\s*\d+ms\s*exceeded/i.test(msg)`. -/
def containsTimeoutPat : List Char → Bool
  | [] => false
  | c :: t => timeoutPatAt (c :: t) || containsTimeoutPat t

/- ── cleanErrorMessage ─────────────────────────────────────────────── -/

/-- The cleaned message after the two stripping steps and their `trim()`
calls — the value the category tests are applied to. -/
def strippedMsg (rawL : List Char) : List Char :=
  trimJS (stripActionQualifier (trimJS (stripLogBlocks rawL)))

/-- `cleanErrorMessage` over `List Char`, following the source line by
line: strip log blocks, strip the action qualifier, map timeout errors to
fixed friendly sentences (the branch conditions test the original `raw`),
pass recognised already-clean messages through unchanged, collapse
newlines and whitespace runs, cap at 200 characters with a `...` marker,
and fall back to a generic sentence when empty. -/
def cleanErrorMsgCore (rawL : List Char) : List Char :=
  let msg := strippedMsg rawL
  if containsTimeoutPat msg then
    if containsCI "waitForURL".data rawL || containsCI "secure.simplepractice".data rawL then
      "Login timed out. SimplePractice may be slow or credentials may be incorrect.".data
    else if containsCI "waitForLoadState".data rawL then
      "Page took too long to load. SimplePractice may be experiencing slowness.".data
    else if containsCI "waitFor".data rawL && containsCI "search".data rawL then
      "Client search timed out. The search box did not appear in time.".data
    else if containsCI "waitFor".data rawL && containsCI "start date".data rawL then
      "Appointment form did not load in time.".data
    else
      "Operation timed out. SimplePractice may be slow or unresponsive. Please try again.".data
  else if containsCI "no upcoming appointments".data msg then msg
  else if containsCI "no clickable appointment".data msg then msg
  else if containsCI "no appointment found matching".data msg then msg
  else
    let msg2 := trimJS (collapseWS (collapseNL msg))
    let msg3 := if 200 < msg2.length then msg2.take 200 ++ "...".data else msg2
    if msg3.isEmpty then
      "An unexpected error occurred during the reschedule process.".data
    else msg3

/-- `cleanErrorMessage(raw)` of the automation module. -/
def cleanErrorMessage (raw : String) : String :=
  ⟨cleanErrorMsgCore raw.data⟩

/- ── Normalizer claim inputs ───────────────────────────────────────── -/

/-- The spec's search-timeout test input, verbatim. -/
def c7Input : String := "Timeout 30000ms exceeded waiting for locator('...Search...')"

/-- A message longer than 200 characters that the normalizer recognises as
already clean ("no upcoming appointments") and passes through unchanged. -/
def c6CexInput : String :=
  ⟨"No upcoming appointments found for client ".data ++ List.replicate 180 'a'⟩

/-- An input whose cleaned form still exceeds 200 characters and matches no
semantic category. -/
def c6WitnessInput : String := ⟨List.replicate 201 'a'⟩

/- ── Claim theorems: error normalizer ──────────────────────────────── -/

/-- Claim C6, counterexample: the claim asserts every input longer than 200
characters is truncated to at most 203 characters ending in an ellipsis,
but an input recognised as already clean (here one containing "no upcoming
appointments") is returned unchanged, at length 222. -/
theorem c6_counterexample :
    200 < c6CexInput.length ∧
    cleanErrorMessage c6CexInput = c6CexInput ∧
    203 < (cleanErrorMessage c6CexInput).length := by
  refine ⟨by decide, by decide, by decide⟩

/-- Claim C6, amended: when the cleaned message matches none of the
semantic categories (timeout, no-upcoming-appointments, no-clickable-
appointment, no-appointment-matching) and, after whitespace collapsing,
still exceeds 200 characters, `cleanErrorMessage` returns exactly 203
characters ending with the `...` marker. -/
theorem c6_amended (raw : String)
    (h1 : containsTimeoutPat (strippedMsg raw.data) = false)
    (h2 : containsCI "no upcoming appointments".data (strippedMsg raw.data) = false)
    (h3 : containsCI "no clickable appointment".data (strippedMsg raw.data) = false)
    (h4 : containsCI "no appointment found matching".data (strippedMsg raw.data) = false)
    (h5 : 200 < (trimJS (collapseWS (collapseNL (strippedMsg raw.data)))).length) :
    (cleanErrorMessage raw).length = 203 ∧
    "...".data.IsSuffix (cleanErrorMessage raw).data := by
  have key : cleanErrorMsgCore raw.data =
      (trimJS (collapseWS (collapseNL (strippedMsg raw.data)))).take 200 ++ "...".data := by
    unfold cleanErrorMsgCore
    simp only [h1, h2, h3, h4, Bool.false_eq_true, if_false]
    rw [if_pos h5]
    split
    · rename_i hemp
      exfalso
      rw [List.isEmpty_iff] at hemp
      have : "...".data = [] := (List.append_eq_nil.mp hemp).2
      simp at this
    · rfl
  have hlen : ((trimJS (collapseWS (collapseNL (strippedMsg raw.data)))).take 200).length = 200 := by
    rw [List.length_take]; omega
  constructor
  · show (cleanErrorMsgCore raw.data).length = 203
    rw [key, List.length_append, hlen]
    decide
  · show "...".data.IsSuffix (cleanErrorMsgCore raw.data)
    rw [key]
    exact ⟨_, rfl⟩

/-- Witness for the amended C6 at a concrete input of 201 `a`s. -/
theorem c6_amended_witness :
    containsTimeoutPat (strippedMsg c6WitnessInput.data) = false ∧
    containsCI "no upcoming appointments".data (strippedMsg c6WitnessInput.data) = false ∧
    containsCI "no clickable appointment".data (strippedMsg c6WitnessInput.data) = false ∧
    containsCI "no appointment found matching".data (strippedMsg c6WitnessInput.data) = false ∧
    200 < (trimJS (collapseWS (collapseNL (strippedMsg c6WitnessInput.data)))).length ∧
    (cleanErrorMessage c6WitnessInput).length = 203 ∧
    "...".data.IsSuffix (cleanErrorMessage c6WitnessInput).data := by
  refine ⟨by decide, by decide, by decide, by decide, by decide, ?_, ?_⟩
  · exact (c6_amended c6WitnessInput (by decide) (by decide) (by decide) (by decide)
      (by decide)).1
  · exact (c6_amended c6WitnessInput (by decide) (by decide) (by decide) (by decide)
      (by decide)).2

/-- Claim C7, counterexample: on the spec's exact test input the normalizer
returns the generic timeout sentence; the output does not mention the
client search (the search branch additionally requires the literal
`waitFor` in the raw text, which "waiting for" does not contain). -/
theorem c7_counterexample :
    cleanErrorMessage c7Input =
      "Operation timed out. SimplePractice may be slow or unresponsive. Please try again." ∧
    containsCI "search".data (cleanErrorMessage c7Input).data = false := by
  refine ⟨by decide, by decide⟩

/-- Claim C7, amended: on the spec's test input the normalizer yields the
fixed generic-timeout sentence — a single-line string of at most 200
characters saying the operation timed out, with no mention of the client
search. -/
theorem c7_amended :
    cleanErrorMessage c7Input =
      "Operation timed out. SimplePractice may be slow or unresponsive. Please try again." ∧
    (cleanErrorMessage c7Input).length ≤ 200 ∧
    (cleanErrorMessage c7Input).data.contains '\n' = false := by
  refine ⟨by decide, by decide, by decide⟩

/-- Claim C9: `cleanErrorMessage` is deterministic and pure — its embedding
reads nothing but its argument (the source function touches no module
state), so equal inputs give equal outputs. -/
theorem c9_pure_deterministic (s₁ s₂ : String) (h : s₁ = s₂) :
    cleanErrorMessage s₁ = cleanErrorMessage s₂ := by rw [h]

/-- Witness for C9 at a concrete input. -/
theorem c9_pure_deterministic_witness :
    ("boom" : String) = "boom" ∧ cleanErrorMessage "boom" = cleanErrorMessage "boom" :=
  ⟨rfl, c9_pure_deterministic "boom" "boom" rfl⟩

/- ── The queue core of the HTTP server ─────────────────────────────── -/

/-!
Shallow embedding of the server's queue core.  The runtime is cooperatively
single-threaded: code between two `await` points runs atomically.  The model
therefore exposes one transition per atomic block:

* `postReschedule` — the `POST /api/reschedule` handler from the queue-limit
  check on (validation happens before and returns 400 without touching the
  queue), followed by `enqueue`'s synchronous body and the synchronous part
  of `processQueue` up to the `await rescheduleAppointment(...)`;
* `runnerSettle` — the continuation after that `await` returns (the `try`
  branch), including the `finally` block and the recursive `processQueue`;
* `runnerThrow` — the `catch` branch plus the same `finally` block;
* `timerFire` — the `setTimeout` callback armed by `enqueue`;
* `shutdown` — the SIGTERM/SIGINT handler (`drainQueue` models its `while`
  loop; `closeServer` models the subsequent `server.close`).

Promises are modelled by a log of `resolve` calls (`resolutions`); the
random hex request ids are modelled by a fresh counter (`nextId`) — all the
code needs of them is uniqueness.  `queuedAt`/`startedAt` timestamps and the
log lines are I/O-only and elided.  `trace` records the start/finish of
each runner execution, for the ordering claims.
-/

/-- Request payload of `POST /api/reschedule` (shape of `RescheduleParams`). -/
structure RescheduleParams where
  clientSearch : String
  newDate : String
  newTime : String
  currentAppointmentDate : Option String
deriving DecidableEq, Repr

/-- A queue entry (`QueueItem` in the source; the `resolve` callback is
modelled by the resolutions log, `queuedAt` is elided). -/
structure QueueItem where
  id : Nat
  params : RescheduleParams
  timedOut : Bool
deriving DecidableEq, Repr

/-- `RunResult` of the source, with the request id as a `Nat`. -/
structure RunResult where
  success : Bool
  requestId : Nat
  message : Option String
  error : Option String
  duration : Nat
deriving DecidableEq, Repr

/-- Start/finish events of runner executions. -/
inductive TraceEv where
  | start (id : Nat)
  | finish (id : Nat)
deriving DecidableEq, Repr

/-- The module-scoped mutable state of the server. -/
structure ServerState where
  queue : List QueueItem
  isRunning : Bool
  /-- the `item` local of `processQueue`, live across its `await`. -/
  inflight : Option QueueItem
  nextId : Nat
  totalProcessed : Nat
  totalSuccess : Nat
  totalFailed : Nat
  lastResult : Option (RunResult × String)
  /-- log of `resolve` calls, in order. -/
  resolutions : List (Nat × RunResult)
  /-- start/finish history of runner executions, oldest first. -/
  trace : List TraceEv
  serverClosed : Bool
deriving DecidableEq, Repr

def MAX_QUEUE_SIZE : Nat := 50

def initialState : ServerState :=
  { queue := [], isRunning := false, inflight := none, nextId := 0,
    totalProcessed := 0, totalSuccess := 0, totalFailed := 0,
    lastResult := none, resolutions := [], trace := [], serverClosed := false }

/-- The synchronous part of `processQueue`: return if busy or empty, shift
any timed-out items off the head, then mark busy, shift the head item and
start the runner on it. -/
def processQueue (s : ServerState) : ServerState :=
  if s.isRunning || s.queue.isEmpty then s
  else
    match s.queue.dropWhile (·.timedOut) with
    | [] => { s with queue := [] }
    | item :: rest =>
      { s with queue := rest, isRunning := true, inflight := some item,
               trace := s.trace ++ [TraceEv.start item.id] }

/-- `enqueue`'s synchronous body: create the item, push it, arm its timer
(modelled by `timerFire` being enabled for its id), call `processQueue`. -/
def enqueue (p : RescheduleParams) (s : ServerState) : ServerState :=
  processQueue
    { s with
      queue := s.queue ++ [{ id := s.nextId, params := p, timedOut := false }],
      nextId := s.nextId + 1 }

/-- Outcome of the `POST /api/reschedule` handler's queue section. -/
inductive SubmitOutcome where
  | queueFull
  | accepted (id : Nat)
deriving DecidableEq, Repr

/-- The handler's queue-limit check (HTTP 429 on `queueFull`) followed by
`enqueue`. -/
def postReschedule (p : RescheduleParams) (s : ServerState) :
    SubmitOutcome × ServerState :=
  if MAX_QUEUE_SIZE ≤ s.queue.length then (SubmitOutcome.queueFull, s)
  else (SubmitOutcome.accepted s.nextId, enqueue p s)

/-- The `RunResult` resolved by the queue-wait timeout. -/
def queueTimeoutResult (id : Nat) : RunResult :=
  { success := false, requestId := id, message := none,
    error := some "Request timed out waiting in queue. Try again later.",
    duration := 0 }

/-- The timer callback for request `id`: if the item is still in the queue
and not yet flagged, flag it, splice it out and resolve its promise with
the timeout failure; otherwise do nothing.  (The flag assignment on the
spliced-out item is unobservable once the item has left the state.) -/
def timerFire (id : Nat) (s : ServerState) : ServerState :=
  match s.queue.find? (fun it => it.id == id) with
  | none => s
  | some item =>
    if item.timedOut then s
    else
      { s with
        queue := s.queue.eraseP (fun it => it.id == id),
        resolutions := s.resolutions ++ [(id, queueTimeoutResult id)] }

/-- Continuation after `await rescheduleAppointment(item.params)` returns
`{success, message}` with wall-clock duration `d`: build the `RunResult`,
bump the counters, store the last-result snapshot, resolve the promise,
then the `finally` block clears the busy flag and recurses. -/
def runnerSettle (ok : Bool) (msg : String) (d : Nat) (s : ServerState) :
    ServerState :=
  match s.inflight with
  | none => s
  | some item =>
    let runResult : RunResult :=
      if ok then
        { success := true, requestId := item.id, message := some msg,
          error := none, duration := d }
      else
        { success := false, requestId := item.id, message := none,
          error := some msg, duration := d }
    processQueue
      { s with
        totalProcessed := s.totalProcessed + 1,
        totalSuccess := if ok then s.totalSuccess + 1 else s.totalSuccess,
        totalFailed := if ok then s.totalFailed else s.totalFailed + 1,
        lastResult := some (runResult, item.params.clientSearch),
        resolutions := s.resolutions ++ [(item.id, runResult)],
        trace := s.trace ++ [TraceEv.finish item.id],
        isRunning := false, inflight := none }

/-- The `catch` branch: the thrown error's message (or the fallback text),
duration 0, counters bumped as a failure, no last-result update, then the
same `finally` block. -/
def runnerThrow (errMsg : String) (s : ServerState) : ServerState :=
  match s.inflight with
  | none => s
  | some item =>
    processQueue
      { s with
        totalProcessed := s.totalProcessed + 1,
        totalFailed := s.totalFailed + 1,
        resolutions := s.resolutions ++
          [(item.id, { success := false, requestId := item.id, message := none,
                       error := some errMsg, duration := 0 })],
        trace := s.trace ++ [TraceEv.finish item.id],
        isRunning := false, inflight := none }

/-- The `RunResult` resolved by the shutdown drain. -/
def shutdownResult (id : Nat) : RunResult :=
  { success := false, requestId := id, message := none,
    error := some "Server shutting down", duration := 0 }

/-- The `while (queue.length > 0)` drain loop of `shutdown`: shift every
item and resolve it with the shutdown failure, in queue order. -/
def drainQueue (s : ServerState) : ServerState :=
  { s with
    queue := [],
    resolutions := s.resolutions ++
      s.queue.map (fun it => (it.id, shutdownResult it.id)) }

/-- `server.close(...)`, reached only after the drain loop has finished. -/
def closeServer (s : ServerState) : ServerState := { s with serverClosed := true }

/-- The SIGTERM/SIGINT handler. -/
def shutdown (s : ServerState) : ServerState := closeServer (drainQueue s)

/-- States reachable from boot by the atomic blocks of the event loop. -/
inductive Reachable : ServerState → Prop where
  | init : Reachable initialState
  | submit (p : RescheduleParams) (s : ServerState) :
      Reachable s → Reachable (postReschedule p s).2
  | settle (ok : Bool) (msg : String) (d : Nat) (s : ServerState) :
      Reachable s → Reachable (runnerSettle ok msg d s)
  | throwE (msg : String) (s : ServerState) :
      Reachable s → Reachable (runnerThrow msg s)
  | timer (id : Nat) (s : ServerState) :
      Reachable s → Reachable (timerFire id s)
  | sigterm (s : ServerState) :
      Reachable s → Reachable (shutdown s)

/- ── Observables and invariants of the queue core ──────────────────── -/

/-- Number of queue entries carrying request id `id`. -/
def countQ (s : ServerState) (id : Nat) : Nat :=
  s.queue.countP (fun it => it.id == id)

/-- 1 when the in-flight item carries request id `id`. -/
def countInf (s : ServerState) (id : Nat) : Nat :=
  match s.inflight with
  | some it => if it.id == id then 1 else 0
  | none => 0

/-- Number of `resolve` calls made for request id `id`. -/
def countRes (s : ServerState) (id : Nat) : Nat :=
  s.resolutions.countP (fun r => r.1 == id)

/-- The `stats` object of `GET /api/health`:
`(totalProcessed, totalSuccess, totalFailed)`. -/
def healthStats (s : ServerState) : Nat × Nat × Nat :=
  (s.totalProcessed, s.totalSuccess, s.totalFailed)

/-- Worker phases as reflected in the start/finish trace. -/
inductive Mode where
  | idle0
  | runningM (i : Nat)
  | idleAfter (i : Nat)
deriving DecidableEq, Repr

/-- One trace event advances the phase: executions nest properly and start
ids strictly increase. -/
def stepMode : Mode → TraceEv → Option Mode
  | Mode.idle0, TraceEv.start i => some (Mode.runningM i)
  | Mode.idleAfter j, TraceEv.start i => if j < i then some (Mode.runningM i) else none
  | Mode.runningM j, TraceEv.finish i => if j == i then some (Mode.idleAfter j) else none
  | _, _ => none

def runMode : Mode → List TraceEv → Option Mode
  | m, [] => some m
  | m, e :: t =>
    match stepMode m e with
    | some m2 => runMode m2 t
    | none => none

def modeBound : Mode → Option Nat
  | Mode.idle0 => none
  | Mode.runningM i => some i
  | Mode.idleAfter i => some i

def boundLt : Option Nat → Nat → Prop
  | none, _ => True
  | some i, j => i < j

/-- How the final phase of the trace matches the current state. -/
def ModeMatch (m : Mode) (s : ServerState) : Prop :=
  (match s.inflight with
   | some it => m = Mode.runningM it.id
   | none => m = Mode.idle0 ∨ ∃ i, m = Mode.idleAfter i) ∧
  (∀ q ∈ s.queue, boundLt (modeBound m) q.id) ∧
  (∀ i, modeBound m = some i → i < s.nextId)

/-- The reachability invariant of the queue core. -/
structure QueueInv (s : ServerState) : Prop where
  runFlag : s.isRunning = s.inflight.isSome
  noTimedOut : ∀ it ∈ s.queue, it.timedOut = false
  queueLe : s.queue.length ≤ MAX_QUEUE_SIZE
  counters : s.totalProcessed = s.totalSuccess + s.totalFailed
  queueSorted : s.queue.Pairwise (fun a b => a.id < b.id)
  queueLt : ∀ it ∈ s.queue, it.id < s.nextId
  inflightLt : ∀ it, s.inflight = some it → it.id < s.nextId
  inflightQueue : ∀ it, s.inflight = some it → ∀ q ∈ s.queue, it.id < q.id
  resLt : ∀ r ∈ s.resolutions, r.1 < s.nextId
  partition : ∀ id, id < s.nextId → countQ s id + countInf s id + countRes s id = 1
  traceOk : ∃ m, runMode Mode.idle0 s.trace = some m ∧ ModeMatch m s

theorem inv_init : QueueInv initialState := by
  refine ⟨rfl, ?_, ?_, rfl, ?_, ?_, ?_, ?_, ?_, ?_, ?_⟩ <;>
    simp [initialState, countQ, countRes, countInf, MAX_QUEUE_SIZE]
  exact ⟨Mode.idle0, by simp [runMode], Or.inl rfl, by simp, by simp [modeBound]⟩

/-- A queue of never-timed-out items is untouched by the skip loop. -/
theorem dropWhile_timedOut_eq (q : List QueueItem)
    (h : ∀ it ∈ q, it.timedOut = false) : q.dropWhile (·.timedOut) = q := by
  cases q with
  | nil => rfl
  | cons a t =>
    rw [List.dropWhile_cons, if_neg]
    simp [h a (by simp)]

theorem runMode_append_one (t : List TraceEv) (e : TraceEv) :
    ∀ m, runMode m (t ++ [e]) = (runMode m t).bind (fun m2 => stepMode m2 e) := by
  induction t with
  | nil =>
    intro m
    simp only [List.nil_append, runMode, Option.bind]
    cases stepMode m e <;> simp [runMode]
  | cons a t ih =>
    intro m
    simp only [List.cons_append, runMode]
    cases stepMode m a <;> simp [ih]

/- ── Invariant preservation ────────────────────────────────────────── -/

theorem inv_processQueue {s : ServerState} (h : QueueInv s) :
    QueueInv (processQueue s) := by
  unfold processQueue
  split
  · exact h
  case _ hguard =>
    have hrun : s.isRunning = false := by
      cases hr : s.isRunning
      · rfl
      · simp [hr] at hguard
    have hne : s.queue ≠ [] := by
      intro hq; simp [hq, hrun] at hguard
    have hinf : s.inflight = none := by
      have hrf := h.runFlag
      rw [hrun] at hrf
      cases hi : s.inflight with
      | none => rfl
      | some it => rw [hi] at hrf; simp at hrf
    have hdrop : s.queue.dropWhile (·.timedOut) = s.queue :=
      dropWhile_timedOut_eq _ h.noTimedOut
    split
    case _ hnil =>
      rw [hdrop] at hnil
      exact absurd hnil hne
    case _ item rest hcons =>
      rw [hdrop] at hcons
      obtain ⟨hia, hrest⟩ := List.pairwise_cons.mp (hcons ▸ h.queueSorted)
      have hmemq : ∀ x ∈ rest, x ∈ s.queue := by
        intro x hx; rw [hcons]; exact List.mem_cons_of_mem _ hx
      have hitem_mem : item ∈ s.queue := by
        rw [hcons]; exact List.mem_cons_self _ _
      refine ⟨rfl, ?_, ?_, h.counters, hrest, ?_, ?_, ?_, h.resLt, ?_, ?_⟩
      · intro it hit; exact h.noTimedOut it (hmemq it hit)
      · have hlen : rest.length ≤ s.queue.length := by rw [hcons]; simp
        exact le_trans hlen h.queueLe
      · intro it hit; exact h.queueLt it (hmemq it hit)
      · intro it hit
        cases hit
        exact h.queueLt item hitem_mem
      · intro it hit q hq
        cases hit
        exact hia q hq
      · intro id hid
        have hpart := h.partition id hid
        unfold countQ countInf countRes at hpart ⊢
        rw [hinf] at hpart
        simp only [hcons, List.countP_cons] at hpart
        simp only at hpart ⊢
        by_cases hcase : (item.id == id) = true <;> simp [hcase] at hpart ⊢ <;> omega
      · obtain ⟨m, hrm, hm1, hm2, hm3⟩ := h.traceOk
        rw [hinf] at hm1
        have hbound : boundLt (modeBound m) item.id := hm2 item hitem_mem
        refine ⟨Mode.runningM item.id, ?_, rfl, ?_, ?_⟩
        · rw [runMode_append_one, hrm]
          cases hm1 with
          | inl h0 => subst h0; rfl
          | inr hex =>
            obtain ⟨i, hi⟩ := hex
            subst hi
            have hlt : i < item.id := hbound
            simp [stepMode, Option.bind, hlt]
        · intro q hq
          exact hia q hq
        · intro i hi
          cases hi
          exact h.queueLt item hitem_mem

theorem inv_enqueue {s : ServerState} (p : RescheduleParams) (h : QueueInv s)
    (hlen : s.queue.length < MAX_QUEUE_SIZE) : QueueInv (enqueue p s) := by
  unfold enqueue
  apply inv_processQueue
  refine ⟨h.runFlag, ?_, ?_, h.counters, ?_, ?_, ?_, ?_, ?_, ?_, ?_⟩
  · intro it hit
    rcases List.mem_append.mp hit with hin | hin
    · exact h.noTimedOut it hin
    · simp at hin; rw [hin]
  · have := h.queueLe
    simp only [List.length_append, List.length_singleton]
    simp only [MAX_QUEUE_SIZE] at hlen ⊢
    omega
  · refine List.pairwise_append.mpr ⟨h.queueSorted, by simp, ?_⟩
    intro a ha b hb
    simp at hb
    rw [hb]
    exact h.queueLt a ha
  · intro it hit
    rcases List.mem_append.mp hit with hin | hin
    · exact Nat.lt_succ_of_lt (h.queueLt it hin)
    · simp at hin; rw [hin]; exact Nat.lt_succ_self _
  · intro it hit
    exact Nat.lt_succ_of_lt (h.inflightLt it hit)
  · intro it hit q hq
    rcases List.mem_append.mp hq with hin | hin
    · exact h.inflightQueue it hit q hin
    · simp at hin; rw [hin]; exact h.inflightLt it hit
  · intro r hr
    exact Nat.lt_succ_of_lt (h.resLt r hr)
  · intro id hid
    unfold countQ countInf countRes
    simp only [List.countP_append]
    by_cases hcase : id = s.nextId
    · have h0q : List.countP (fun it => it.id == id) s.queue = 0 :=
        List.countP_eq_zero.mpr (by
          intro a ha
          have := h.queueLt a ha
          simp
          omega)
      have h0res : List.countP (fun r => r.1 == id) s.resolutions = 0 :=
        List.countP_eq_zero.mpr (by
          intro r hr
          have := h.resLt r hr
          simp
          omega)
      have h0inf : (match s.inflight with
          | some it => if it.id == id then 1 else 0
          | none => 0) = 0 := by
        cases hi : s.inflight with
        | none => rfl
        | some it =>
          have := h.inflightLt it hi
          simp
          omega
      simp only [h0q, h0res]
      rw [h0inf]
      simp [hcase]
    · have hid2 : id < s.nextId + 1 := hid
      have hlt : id < s.nextId := by omega
      have hpart := h.partition id hlt
      unfold countQ countInf countRes at hpart
      have hnew0 : List.countP (fun it => it.id == id)
          [({ id := s.nextId, params := p, timedOut := false } : QueueItem)] = 0 := by
        simp
        omega
      rw [hnew0]
      omega
  · obtain ⟨m, hrm, hm1, hm2, hm3⟩ := h.traceOk
    refine ⟨m, hrm, hm1, ?_, ?_⟩
    · intro q hq
      rcases List.mem_append.mp hq with hin | hin
      · exact hm2 q hin
      · simp at hin
        rw [hin]
        cases hmb : modeBound m with
        | none => trivial
        | some i =>
          show i < s.nextId
          exact hm3 i hmb
    · intro i hi
      exact Nat.lt_succ_of_lt (hm3 i hi)

theorem inv_postReschedule {s : ServerState} (p : RescheduleParams)
    (h : QueueInv s) : QueueInv (postReschedule p s).2 := by
  unfold postReschedule
  split
  · exact h
  case _ hlen =>
    exact inv_enqueue p h (Nat.lt_of_not_le hlen)

theorem inv_runnerSettle {s : ServerState} (ok : Bool) (msg : String) (d : Nat)
    (h : QueueInv s) : QueueInv (runnerSettle ok msg d s) := by
  unfold runnerSettle
  split
  · exact h
  case _ item hinf =>
    apply inv_processQueue
    have hidlt : item.id < s.nextId := h.inflightLt item hinf
    have hcnt := h.counters
    refine ⟨rfl, h.noTimedOut, h.queueLe, ?_, h.queueSorted, h.queueLt, ?_, ?_, ?_, ?_, ?_⟩
    · cases ok <;> simp <;> omega
    · intro it hit; simp at hit
    · intro it hit q hq; simp at hit
    · intro r hr
      rcases List.mem_append.mp hr with hin | hin
      · exact h.resLt r hin
      · simp at hin
        rw [hin]
        exact hidlt
    · intro id hid
      have hpart := h.partition id hid
      unfold countQ countInf countRes at hpart ⊢
      simp only [hinf] at hpart
      simp only [List.countP_append, List.countP_cons, List.countP_nil]
      by_cases hcase : (item.id == id) = true <;> simp [hcase] at hpart ⊢ <;> omega
    · obtain ⟨m, hrm, hm1, hm2, hm3⟩ := h.traceOk
      simp only [hinf] at hm1
      subst hm1
      refine ⟨Mode.idleAfter item.id, ?_, Or.inr ⟨item.id, rfl⟩, ?_, ?_⟩
      · rw [runMode_append_one, hrm]
        simp [stepMode, Option.bind]
      · intro q hq
        exact h.inflightQueue item hinf q hq
      · intro i hi
        cases hi
        exact hidlt

theorem inv_runnerThrow {s : ServerState} (msg : String)
    (h : QueueInv s) : QueueInv (runnerThrow msg s) := by
  unfold runnerThrow
  split
  · exact h
  case _ item hinf =>
    apply inv_processQueue
    have hidlt : item.id < s.nextId := h.inflightLt item hinf
    have hcnt := h.counters
    refine ⟨rfl, h.noTimedOut, h.queueLe, ?_, h.queueSorted, h.queueLt, ?_, ?_, ?_, ?_, ?_⟩
    · simp; omega
    · intro it hit; simp at hit
    · intro it hit q hq; simp at hit
    · intro r hr
      rcases List.mem_append.mp hr with hin | hin
      · exact h.resLt r hin
      · simp at hin
        rw [hin]
        exact hidlt
    · intro id hid
      have hpart := h.partition id hid
      unfold countQ countInf countRes at hpart ⊢
      simp only [hinf] at hpart
      simp only [List.countP_append, List.countP_cons, List.countP_nil]
      by_cases hcase : (item.id == id) = true <;> simp [hcase] at hpart ⊢ <;> omega
    · obtain ⟨m, hrm, hm1, hm2, hm3⟩ := h.traceOk
      simp only [hinf] at hm1
      subst hm1
      refine ⟨Mode.idleAfter item.id, ?_, Or.inr ⟨item.id, rfl⟩, ?_, ?_⟩
      · rw [runMode_append_one, hrm]
        simp [stepMode, Option.bind]
      · intro q hq
        exact h.inflightQueue item hinf q hq
      · intro i hi
        cases hi
        exact hidlt

theorem inv_timerFire {s : ServerState} (id : Nat) (h : QueueInv s) :
    QueueInv (timerFire id s) := by
  unfold timerFire
  split
  · exact h
  case _ item hfind =>
    split
    · exact h
    case _ =>
      have hmem : item ∈ s.queue := List.mem_of_find?_eq_some hfind
      have hid := List.find?_some hfind
      have hideq : item.id = id := by simpa using hid
      have hsub : (s.queue.eraseP (fun it => it.id == id)).Sublist s.queue :=
        List.eraseP_sublist _
      have hidlt : id < s.nextId := hideq ▸ h.queueLt item hmem
      obtain ⟨a, l₁, l₂, hnl, hpa, heq, herase⟩ :=
        @List.exists_of_eraseP QueueItem (fun it => it.id == id) s.queue item hmem hid
      refine ⟨h.runFlag, ?_, ?_, h.counters, ?_, ?_, h.inflightLt, ?_, ?_, ?_, ?_⟩
      · intro it hit; exact h.noTimedOut it (hsub.subset hit)
      · exact le_trans hsub.length_le h.queueLe
      · exact List.Pairwise.sublist hsub h.queueSorted
      · intro it hit; exact h.queueLt it (hsub.subset hit)
      · intro it hit q hq; exact h.inflightQueue it hit q (hsub.subset hq)
      · intro r hr
        rcases List.mem_append.mp hr with hin | hin
        · exact h.resLt r hin
        · simp at hin; rw [hin]; exact hidlt
      · intro id2 hid2
        have hpart := h.partition id2 hid2
        have hpa2 : a.id = id := by simpa using hpa
        unfold countQ countInf countRes at hpart ⊢
        rw [heq] at hpart
        rw [herase]
        simp only [List.countP_append, List.countP_cons, List.countP_nil] at hpart ⊢
        by_cases hc : id = id2 <;> simp [hpa2, hc] at hpart ⊢ <;> omega
      · obtain ⟨m, hrm, hm1, hm2, hm3⟩ := h.traceOk
        refine ⟨m, hrm, hm1, ?_, hm3⟩
        intro q hq
        exact hm2 q (hsub.subset hq)

theorem inv_drainQueue {s : ServerState} (h : QueueInv s) :
    QueueInv (drainQueue s) := by
  unfold drainQueue
  refine ⟨h.runFlag, ?_, ?_, h.counters, List.Pairwise.nil, ?_, h.inflightLt, ?_, ?_, ?_, ?_⟩
  · intro it hit; exact absurd hit (List.not_mem_nil it)
  · simp [MAX_QUEUE_SIZE]
  · intro it hit; exact absurd hit (List.not_mem_nil it)
  · intro it hit q hq; exact absurd hq (List.not_mem_nil q)
  · intro r hr
    rcases List.mem_append.mp hr with hin | hin
    · exact h.resLt r hin
    · obtain ⟨it, hitmem, hmap⟩ := List.mem_map.mp hin
      rw [← hmap]
      exact h.queueLt it hitmem
  · intro id hid
    have hpart := h.partition id hid
    have hcomp : List.countP
        ((fun r => r.1 == id) ∘ (fun it => (it.id, shutdownResult it.id))) s.queue
        = List.countP (fun it => it.id == id) s.queue := rfl
    unfold countQ countInf countRes at hpart ⊢
    simp only [List.countP_nil, List.countP_append, List.countP_map]
    rw [hcomp]
    omega
  · obtain ⟨m, hrm, hm1, hm2, hm3⟩ := h.traceOk
    refine ⟨m, hrm, hm1, ?_, hm3⟩
    intro q hq
    exact absurd hq (List.not_mem_nil q)

theorem inv_closeServer {s : ServerState} (h : QueueInv s) :
    QueueInv (closeServer s) :=
  ⟨h.runFlag, h.noTimedOut, h.queueLe, h.counters, h.queueSorted, h.queueLt,
   h.inflightLt, h.inflightQueue, h.resLt, h.partition, h.traceOk⟩

theorem inv_shutdown {s : ServerState} (h : QueueInv s) :
    QueueInv (shutdown s) := inv_closeServer (inv_drainQueue h)

/-- The master invariant: every reachable state satisfies `QueueInv`. -/
theorem reachable_inv {s : ServerState} (h : Reachable s) : QueueInv s := by
  induction h with
  | init => exact inv_init
  | submit p s _ ih => exact inv_postReschedule p ih
  | settle ok msg d s _ ih => exact inv_runnerSettle ok msg d ih
  | throwE msg s _ ih => exact inv_runnerThrow msg ih
  | timer id s _ ih => exact inv_timerFire id ih
  | sigterm s _ ih => exact inv_shutdown ih

/- ── Trace ordering lemmas ─────────────────────────────────────────── -/

theorem stepMode_bound_mono {m m1 : Mode} {e : TraceEv}
    (h : stepMode m e = some m1) :
    ∀ j, boundLt (modeBound m1) j → boundLt (modeBound m) j := by
  intro j hj
  cases m with
  | idle0 => trivial
  | runningM k =>
    cases e with
    | start i => simp [stepMode] at h
    | finish i =>
      simp only [stepMode] at h
      split at h
      · cases h; exact hj
      · cases h
  | idleAfter k =>
    cases e with
    | finish i => simp [stepMode] at h
    | start i =>
      simp only [stepMode] at h
      split at h
      case _ hki =>
        cases h
        exact lt_trans hki hj
      · cases h

theorem stepMode_start_eq {m m1 : Mode} {i : Nat}
    (h : stepMode m (TraceEv.start i) = some m1) : m1 = Mode.runningM i := by
  cases m with
  | idle0 => simp [stepMode] at h; exact h.symm
  | runningM k => simp [stepMode] at h
  | idleAfter k =>
    simp only [stepMode] at h
    split at h
    · cases h; rfl
    · cases h

/-- Every start id recorded after phase `m` exceeds the bound of `m`. -/
theorem runMode_start_bound :
    ∀ (t : List TraceEv) (m m2 : Mode), runMode m t = some m2 →
      ∀ j, TraceEv.start j ∈ t → boundLt (modeBound m) j := by
  intro t
  induction t with
  | nil => intro m m2 h j hj; exact absurd hj (List.not_mem_nil _)
  | cons e r ih =>
    intro m m2 h j hj
    simp only [runMode] at h
    cases hs : stepMode m e with
    | none => simp [hs] at h
    | some m1 =>
      simp only [hs] at h
      rcases List.mem_cons.mp hj with hj1 | hj2
      · cases m with
        | idle0 => trivial
        | runningM k => rw [← hj1] at hs; simp [stepMode] at hs
        | idleAfter k =>
          rw [← hj1] at hs
          simp only [stepMode] at hs
          split at hs
          case _ hki => exact hki
          · cases hs
      · exact stepMode_bound_mono hs j (ih m1 m2 h j hj2)

/-- A well-formed trace in a running phase must record that execution's
finish before any later start. -/
theorem runMode_runningM_sub {i : Nat} :
    ∀ (r : List TraceEv) (m2 : Mode), runMode (Mode.runningM i) r = some m2 →
      ∀ j, TraceEv.start j ∈ r →
        [TraceEv.finish i, TraceEv.start j].Sublist r := by
  intro r m2 h j hj
  cases r with
  | nil => exact absurd hj (List.not_mem_nil _)
  | cons e r2 =>
    simp only [runMode] at h
    cases hs : stepMode (Mode.runningM i) e with
    | none => simp [hs] at h
    | some m1 =>
      simp only [hs] at h
      cases e with
      | start i2 => simp [stepMode] at hs
      | finish i2 =>
        simp only [stepMode] at hs
        split at hs
        case _ hii =>
          have hieq : i = i2 := by simpa using hii
          have hj2 : TraceEv.start j ∈ r2 := by
            rcases List.mem_cons.mp hj with h1 | h2
            · exact absurd h1 (by simp)
            · exact h2
          subst hieq
          exact List.Sublist.cons₂ _ (List.singleton_sublist.mpr hj2)
        · cases hs

/-- In a well-formed trace, a start with a smaller id is followed by its
finish before any start with a larger id. -/
theorem runMode_start_order :
    ∀ (t : List TraceEv) (m m2 : Mode), runMode m t = some m2 →
      ∀ i j, i < j → TraceEv.start i ∈ t → TraceEv.start j ∈ t →
        [TraceEv.start i, TraceEv.finish i, TraceEv.start j].Sublist t := by
  intro t
  induction t with
  | nil => intro m m2 h i j hij hi hj; exact absurd hi (List.not_mem_nil _)
  | cons e r ih =>
    intro m m2 h i j hij hi hj
    simp only [runMode] at h
    cases hs : stepMode m e with
    | none => simp [hs] at h
    | some m1 =>
      simp only [hs] at h
      by_cases hei : e = TraceEv.start i
      · subst hei
        have hm1 : m1 = Mode.runningM i := stepMode_start_eq hs
        subst hm1
        have hjr : TraceEv.start j ∈ r := by
          rcases List.mem_cons.mp hj with h1 | h2
          · exfalso
            have : j = i := by
              have := h1
              injection this
            omega
          · exact h2
        exact List.Sublist.cons₂ _ (runMode_runningM_sub r m2 h j hjr)
      · have hir : TraceEv.start i ∈ r := by
          rcases List.mem_cons.mp hi with h1 | h2
          · exact absurd h1.symm hei
          · exact h2
        by_cases hej : e = TraceEv.start j
        · exfalso
          subst hej
          have hm1 : m1 = Mode.runningM j := stepMode_start_eq hs
          subst hm1
          have hb : boundLt (modeBound (Mode.runningM j)) i :=
            runMode_start_bound r _ m2 h i hir
          have : j < i := hb
          omega
        · have hjr : TraceEv.start j ∈ r := by
            rcases List.mem_cons.mp hj with h1 | h2
            · exact absurd h1.symm hej
            · exact h2
          exact List.Sublist.cons _ (ih m1 m2 h i j hij hir hjr)

/- ── Concrete states for witnesses ─────────────────────────────────── -/

def paramsW : RescheduleParams :=
  { clientSearch := "Jane Doe", newDate := "03/05/2026", newTime := "03:00 PM",
    currentAppointmentDate := none }

/-- One request accepted (and immediately dispatched). -/
def c1WState : ServerState := (postReschedule paramsW initialState).2

theorem c1WReach : Reachable c1WState :=
  Reachable.submit paramsW initialState Reachable.init

/-- Two requests accepted: the first in flight, the second queued. -/
def c3WState : ServerState := (postReschedule paramsW c1WState).2

theorem c3WReach : Reachable c3WState :=
  Reachable.submit paramsW c1WState c1WReach

/-- Three requests accepted: the first in flight, two still queued. -/
def c5WState : ServerState := (postReschedule paramsW c3WState).2

theorem c5WReach : Reachable c5WState :=
  Reachable.submit paramsW c3WState c3WReach

/-- First request settled successfully, then a second request accepted. -/
def c10WState : ServerState := runnerSettle true "done" 2 c1WState

theorem c10WReach : Reachable c10WState :=
  Reachable.settle true "done" 2 c1WState c1WReach

def c2WState : ServerState := (postReschedule paramsW c10WState).2

theorem c2WReach : Reachable c2WState :=
  Reachable.submit paramsW c10WState c10WReach

/-- A state whose waiting list is at the configured capacity. -/
def c4FullState : ServerState :=
  { initialState with
    queue := (List.range 50).map
      (fun n => { id := n, params := paramsW, timedOut := false }),
    nextId := 50 }

/- ── Claim theorems: queue core ────────────────────────────────────── -/

/-- Claim C1: in every reachable state, every request id has been resolved
at most once, and an id has been issued (accepted into the queue) exactly
when it is in precisely one of the three places: waiting in the queue, in
flight, or resolved (once) — so no accepted request's promise is resolved
twice, every resolution happened at one of the model's four resolving
transitions (runner settle, runner throw/catch, queue-timeout, shutdown
drain), and a pending promise is always still tracked.  A queue-full
submission leaves the state untouched (see the C4 theorem), so it creates
no promise. -/
theorem c1_resolved_exactly_once (s : ServerState) (hr : Reachable s) (id : Nat) :
    countRes s id ≤ 1 ∧
    (id < s.nextId ↔ countQ s id + countInf s id + countRes s id = 1) := by
  have hinv := reachable_inv hr
  have h0q : s.nextId ≤ id → countQ s id = 0 := by
    intro hge
    unfold countQ
    apply List.countP_eq_zero.mpr
    intro a ha
    have := hinv.queueLt a ha
    simp
    omega
  have h0i : s.nextId ≤ id → countInf s id = 0 := by
    intro hge
    unfold countInf
    cases hi : s.inflight with
    | none => rfl
    | some it =>
      have := hinv.inflightLt it hi
      simp
      omega
  have h0r : s.nextId ≤ id → countRes s id = 0 := by
    intro hge
    unfold countRes
    apply List.countP_eq_zero.mpr
    intro r hrm
    have := hinv.resLt r hrm
    simp
    omega
  constructor
  · by_cases hlt : id < s.nextId
    · have := hinv.partition id hlt
      omega
    · have := h0r (by omega)
      omega
  · constructor
    · exact hinv.partition id
    · intro hsum
      by_contra hge
      have hge2 : s.nextId ≤ id := by omega
      have := h0q hge2
      have := h0i hge2
      have := h0r hge2
      omega

/-- Witness for C1 after one accepted request. -/
theorem c1_witness :
    countRes c1WState 0 ≤ 1 ∧
    (0 < c1WState.nextId ↔
      countQ c1WState 0 + countInf c1WState 0 + countRes c1WState 0 = 1) :=
  c1_resolved_exactly_once c1WState c1WReach 0

/-- Claim C2: request ids are issued in submission order, so for requests
`i` submitted before `j` (`i < j`) that were both dispatched to the runner,
the trace contains `start i`, then `finish i`, then `start j` in that
order: the earlier request starts and finishes strictly before the later
one starts (single in-flight slot + FIFO dispatch). -/
theorem c2_fifo_order (s : ServerState) (hr : Reachable s) (i j : Nat)
    (hij : i < j) (hi : TraceEv.start i ∈ s.trace)
    (hj : TraceEv.start j ∈ s.trace) :
    [TraceEv.start i, TraceEv.finish i, TraceEv.start j].Sublist s.trace := by
  obtain ⟨m, hrm, _⟩ := (reachable_inv hr).traceOk
  exact runMode_start_order s.trace Mode.idle0 m hrm i j hij hi hj

/-- Witness for C2: submit, settle, submit again; the trace is
`[start 0, finish 0, start 1]`. -/
theorem c2_witness :
    0 < 1 ∧ TraceEv.start 0 ∈ c2WState.trace ∧ TraceEv.start 1 ∈ c2WState.trace ∧
    [TraceEv.start 0, TraceEv.finish 0, TraceEv.start 1].Sublist c2WState.trace :=
  ⟨by decide, by decide, by decide,
   c2_fifo_order c2WState c2WReach 0 1 (by decide) (by decide) (by decide)⟩

/-- Claim C3: when the deadline timer for `id` fires while the request is
still in the waiting list, the entry is removed (spliced out, no entry with
that id remains), and its promise is resolved exactly once more with the
queue-timeout failure — `success = false`, `duration = 0`; when no entry
with that id is in the list (already dequeued for execution, already
resolved, or never accepted), the callback is a no-op and resolves
nothing. -/
theorem c3_timer_semantics (s : ServerState) (hr : Reachable s) (id : Nat) :
    ((∃ it ∈ s.queue, it.id = id) →
      (timerFire id s).queue = s.queue.eraseP (fun it => it.id == id) ∧
      (timerFire id s).resolutions = s.resolutions ++ [(id, queueTimeoutResult id)] ∧
      (∀ it ∈ (timerFire id s).queue, it.id ≠ id) ∧
      (queueTimeoutResult id).success = false ∧
      (queueTimeoutResult id).duration = 0) ∧
    ((∀ it ∈ s.queue, it.id ≠ id) → timerFire id s = s) := by
  have hinv := reachable_inv hr
  constructor
  · intro hex
    obtain ⟨it0, hmem0, hid0⟩ := hex
    have hfindsome : (s.queue.find? (fun it => it.id == id)).isSome := by
      rw [List.find?_isSome]
      exact ⟨it0, hmem0, by simp [hid0]⟩
    cases hfind : s.queue.find? (fun it => it.id == id) with
    | none => rw [hfind] at hfindsome; simp at hfindsome
    | some item =>
      have hmem : item ∈ s.queue := List.mem_of_find?_eq_some hfind
      have hnotTO : item.timedOut = false := hinv.noTimedOut item hmem
      have hid := List.find?_some hfind
      unfold timerFire
      simp only [hfind]
      rw [if_neg (by simp [hnotTO])]
      refine ⟨rfl, rfl, ?_, rfl, rfl⟩
      intro it hit
      obtain ⟨a, l₁, l₂, hnl, hpa, heq, herase⟩ :=
        @List.exists_of_eraseP QueueItem (fun it => it.id == id) s.queue item hmem hid
      rw [herase] at hit
      have hpa2 : a.id = id := by simpa using hpa
      rcases List.mem_append.mp hit with hin | hin
      · have := hnl it hin
        simpa using this
      · have hsorted := hinv.queueSorted
        rw [heq] at hsorted
        have hpw := (List.pairwise_append.mp hsorted).2.1
        have hlt : a.id < it.id := (List.pairwise_cons.mp hpw).1 it hin
        omega
  · intro hall
    unfold timerFire
    cases hfind : s.queue.find? (fun it => it.id == id) with
    | none => rfl
    | some item =>
      exfalso
      have hmem : item ∈ s.queue := List.mem_of_find?_eq_some hfind
      have hid := List.find?_some hfind
      have : item.id = id := by simpa using hid
      exact hall item hmem this

/-- Witness for C3: with request 1 queued, its timer removes and resolves
it; the timer of an unknown id 99 is a no-op. -/
theorem c3_witness :
    (∃ it ∈ c3WState.queue, it.id = 1) ∧
    (timerFire 1 c3WState).resolutions =
      c3WState.resolutions ++ [(1, queueTimeoutResult 1)] ∧
    (∀ it ∈ (timerFire 1 c3WState).queue, it.id ≠ 1) ∧
    timerFire 99 c3WState = c3WState :=
  ⟨by decide,
   ((c3_timer_semantics c3WState c3WReach 1).1 (by decide)).2.1,
   ((c3_timer_semantics c3WState c3WReach 1).1 (by decide)).2.2.1,
   (c3_timer_semantics c3WState c3WReach 99).2 (by decide)⟩

/-- Claim C4: a submission finding the waiting list at (or beyond) the
configured maximum of `MAX_QUEUE_SIZE = 50` is rejected synchronously with
the queue-full outcome (HTTP 429) and leaves the state completely
unchanged — no entry, no timer, no promise; below the maximum, the request
is accepted with a fresh id, appended at the tail of the waiting list, and
only then does the drain attempt run. -/
theorem c4_queue_capacity (p : RescheduleParams) (s : ServerState) :
    (MAX_QUEUE_SIZE ≤ s.queue.length →
      postReschedule p s = (SubmitOutcome.queueFull, s)) ∧
    (s.queue.length < MAX_QUEUE_SIZE →
      (postReschedule p s).1 = SubmitOutcome.accepted s.nextId ∧
      (postReschedule p s).2 = processQueue
        { s with
          queue := s.queue ++ [{ id := s.nextId, params := p, timedOut := false }],
          nextId := s.nextId + 1 }) := by
  constructor
  · intro hfull
    unfold postReschedule
    rw [if_pos hfull]
  · intro hlt
    unfold postReschedule
    rw [if_neg (by omega)]
    exact ⟨rfl, rfl⟩

/-- Witness for C4: a full queue rejects and is unchanged; the empty
initial state accepts. -/
theorem c4_witness :
    (MAX_QUEUE_SIZE ≤ c4FullState.queue.length ∧
      postReschedule paramsW c4FullState = (SubmitOutcome.queueFull, c4FullState)) ∧
    (initialState.queue.length < MAX_QUEUE_SIZE ∧
      (postReschedule paramsW initialState).1 = SubmitOutcome.accepted 0) :=
  ⟨⟨by decide, (c4_queue_capacity paramsW c4FullState).1 (by decide)⟩,
   ⟨by decide, ((c4_queue_capacity paramsW initialState).2 (by decide)).1⟩⟩

/-- Claim C5: `shutdown` first drains — every entry of the waiting list is
resolved, in order, with the server-shutting-down failure (`success =
false`, `duration = 0`) and the list is emptied — and only the subsequent
`closeServer` step closes the listening endpoint: after the drain the
resolutions are already present while `serverClosed` is still untouched. -/
theorem c5_shutdown_drain (s : ServerState) :
    (drainQueue s).queue = [] ∧
    (drainQueue s).resolutions =
      s.resolutions ++ s.queue.map (fun it => (it.id, shutdownResult it.id)) ∧
    (∀ it ∈ s.queue, (it.id, shutdownResult it.id) ∈ (drainQueue s).resolutions) ∧
    (∀ id, (shutdownResult id).success = false ∧ (shutdownResult id).duration = 0) ∧
    (drainQueue s).serverClosed = s.serverClosed ∧
    shutdown s = closeServer (drainQueue s) := by
  refine ⟨rfl, rfl, ?_, fun id => ⟨rfl, rfl⟩, rfl, rfl⟩
  intro it hit
  unfold drainQueue
  apply List.mem_append.mpr
  right
  exact List.mem_map.mpr ⟨it, hit, rfl⟩

/-- Witness for C5: with requests 1 and 2 still queued, both are resolved
by the drain, the list is empty, and the endpoint is still open until
`closeServer`. -/
theorem c5_witness :
    c5WState.queue.length = 2 ∧
    (1, shutdownResult 1) ∈ (drainQueue c5WState).resolutions ∧
    (2, shutdownResult 2) ∈ (drainQueue c5WState).resolutions ∧
    (drainQueue c5WState).queue = [] ∧
    (drainQueue c5WState).serverClosed = false ∧
    shutdown c5WState = closeServer (drainQueue c5WState) := by
  refine ⟨by decide, ?_, ?_, (c5_shutdown_drain c5WState).1, ?_,
    (c5_shutdown_drain c5WState).2.2.2.2.2⟩
  · exact (c5_shutdown_drain c5WState).2.2.1
      { id := 1, params := paramsW, timedOut := false } (by decide)
  · exact (c5_shutdown_drain c5WState).2.2.1
      { id := 2, params := paramsW, timedOut := false } (by decide)
  · rw [(c5_shutdown_drain c5WState).2.2.2.2.1]
    decide

/-- Claim C8: the waiting list of every reachable state has length at most
`MAX_QUEUE_SIZE = 50`: the only appending transition is guarded by the
capacity check, and every other transition only removes entries. -/
theorem c8_queue_bounded (s : ServerState) (hr : Reachable s) :
    s.queue.length ≤ MAX_QUEUE_SIZE :=
  (reachable_inv hr).queueLe

/-- Witness for C8 at a reachable state with a nonempty queue. -/
theorem c8_witness : c5WState.queue.length ≤ MAX_QUEUE_SIZE :=
  c8_queue_bounded c5WState c5WReach

/-- Claim C10: in every reachable state — in particular after each runner
settle or thrown-error completion — the aggregate counters satisfy
`totalProcessed = totalSuccess + totalFailed`, and therefore so does the
`stats` object the health endpoint reports. -/
theorem c10_counters_consistent (s : ServerState) (hr : Reachable s) :
    s.totalProcessed = s.totalSuccess + s.totalFailed ∧
    (healthStats s).1 = (healthStats s).2.1 + (healthStats s).2.2 :=
  ⟨(reachable_inv hr).counters, (reachable_inv hr).counters⟩

/-- Witness for C10 after one completed job. -/
theorem c10_witness :
    c10WState.totalProcessed = 1 ∧
    c10WState.totalProcessed = c10WState.totalSuccess + c10WState.totalFailed :=
  ⟨by decide, (c10_counters_consistent c10WState c10WReach).1⟩
